import Mathlib

/-!
Shallow embedding of the ebbflow ACSL build pipeline
(`src/ebbflow/acsl/...`), covering:

* `ConstantManager.set_constant` (build/ast_visitors/constant_manager.py)
* CINT resolution in `AcslBuild.build` (build/acsl_build.py)
* the sorter `AcslSort` (build/sort/acsl_sort.py)
* the statement parser `FunctionParser._collect_assign`
  (build/sort/function_parser.py)
* integ-call detection (build/ast_visitors/integ_function_creator.py,
  build/ast_visitors/statevar_collector.py)
* the `IntegrationManager` (integration/integration_manager.py)
* the run loop and result projection of `AcslRun` (run/acsl_run.py)

Machine floats are modelled as exact rationals, Python dicts as
insertion-ordered association lists, and raised exceptions as `Except`
errors or explicit error components.
-/

/-- Python values that can flow through the constant machinery.  A list
value only matters through its type here, but its elements are kept. -/
inductive PyVal where
  | pyint (i : Int)
  | pyfloat (q : ℚ)
  | pybool (b : Bool)
  | pylist (elems : List Int)
  | pystr (s : String)
  | pynone
deriving DecidableEq, Repr

/-- Python `isinstance(v, (int, float, bool, list))`, the tuple
`ConstantManager.valid_types`.  In Python `bool` is a subclass of `int`,
which is harmless here since `bool` is itself in the tuple. -/
def isValidConstType : PyVal → Bool
  | .pyint _ => true
  | .pyfloat _ => true
  | .pybool _ => true
  | .pylist _ => true
  | _ => false

/-- Python `isinstance(v, int)`.  `True`/`False` are `int`s in Python. -/
def isPyInt : PyVal → Bool
  | .pyint _ => true
  | .pybool _ => true
  | _ => false

/-- The errors `ConstantManager.set_constant` can raise, in source order:
a `TypeError` for a non-string name, a `TypeError` for a value outside
`valid_types`, a `ValueError` for a redefinition. -/
inductive ConstError where
  | nameNotString
  | invalidType (name : String)
  | alreadyDefined (name : String)
deriving DecidableEq, Repr

/-- The constants dictionary, insertion ordered. -/
abbrev ConstDict := List (String × PyVal)

/-- Python `name in dict`. -/
def dictContains (d : ConstDict) (k : String) : Bool :=
  d.any (fun p => p.1 == k)

/-- `ConstantManager.set_constant`: validate the name, then the value
type, then reject redefinition; only after all checks does the binding
get added.  The returned dictionary is the post-call state of
`self.constants` (unchanged when an error is raised, since the Python
method assigns only in its final line). -/
def set_constant (name value : PyVal) (constants : ConstDict) :
    Option ConstError × ConstDict :=
  match name with
  | .pystr s =>
    if ¬ isValidConstType value then
      (some (.invalidType s), constants)
    else if dictContains constants s then
      (some (.alreadyDefined s), constants)
    else
      (none, constants ++ [(s, value)])
  | _ => (some .nameNotString, constants)

/-- The dictionary a fresh `ConstantManager` starts from (with an empty
INITIAL scope): the predefined constant `t` with value 0. -/
def initConstants : ConstDict := [("t", .pyint 0)]

/-- Python `dict.get(k, default)`. -/
def dictGet (d : ConstDict) (k : String) (dflt : PyVal) : PyVal :=
  match d.lookup k with
  | some v => v
  | none => dflt

/-- CINT resolution in `AcslBuild.build` (acsl_build.py lines 96-104):
`self.CINT = self.constants.get("CINT", self.CINT)`; if still `None`,
take the DYNAMIC integration setting; if still `None` or not an `int`,
fall back to 1.  `caller` is the `CINT` constructor argument (`.pynone`
when the caller passed nothing). -/
def resolveCINT (caller : PyVal) (constants settings : ConstDict) : PyVal :=
  let c1 := dictGet constants "CINT" caller
  let c2 := if c1 = .pynone then dictGet settings "CINT" .pynone else c1
  if c2 = .pynone ∨ ¬ isPyInt c2 then .pyint 1 else c2

/-- Decidable equality for `Except`, used to evaluate the embedded
functions on concrete inputs. -/
instance {e a : Type} [DecidableEq e] [DecidableEq a] : DecidableEq (Except e a) :=
  fun x y =>
  match x, y with
  | .ok u, .ok v => decidable_of_iff (u = v) (by simp)
  | .error u, .error v => decidable_of_iff (u = v) (by simp)
  | .ok _, .error _ => isFalse (fun hc => Except.noConfusion hc)
  | .error _, .ok _ => isFalse (fun hc => Except.noConfusion hc)

/-! ### Sorter: `AcslSort` (build/sort/acsl_sort.py) -/

/-- The variable map produced by `FunctionParser`: each assigned name with
its (already filtered) dependency list, in source order. -/
abbrev VarMap := List (String × List String)

/-- Dependencies of a variable in the map (`variable_map[var]["dependencies"]`,
empty for names not in the map, matching the defaultdict). -/
def lookupDeps (vmap : VarMap) (v : String) : List String :=
  match vmap.lookup v with
  | some deps => deps
  | none => []

/-- `FunctionParser.filter_variable_map`: drop state variables, constants
and `t` from every dependency list. -/
def filterVariableMap (vmap : VarMap) (stateVars constants : List String) :
    VarMap :=
  vmap.map fun p =>
    (p.1, p.2.filter (fun dep => ¬ (stateVars ++ constants ++ ["t"]).contains dep))

/-- `AcslSort._pick_next_variable`: scan the pending variables and return
the first whose dependency list is empty or fully calculated; `none`
models the `ValueError` fall-through. -/
def pick_next_variable (variables_to_sort calculated_variables : List String)
    (variable_map : VarMap) : Option String :=
  variables_to_sort.find? fun v =>
    let deps := lookupDeps variable_map v
    deps.isEmpty || deps.all (fun dep => calculated_variables.contains dep)

/-- The message of the `ValueError` raised when no pending variable can be
picked. -/
def cyclicErrorMsg : String :=
  "Not possible to calculate any of the remaining variables"

/-- The `while variables_to_sort:` loop of `AcslSort.sort`.  `fuel` is an
embedding artifact bounding the iteration count; one pending variable is
removed per iteration, so `pending.length` fuel is exact. -/
def sortLoop (vmap : VarMap) :
    Nat → List String → List String → Except String (List String)
  | fuel, pending, calculated =>
    if pending.isEmpty then .ok calculated
    else
      match fuel with
      | 0 => .error cyclicErrorMsg
      | fuel + 1 =>
        match pick_next_variable pending calculated vmap with
        | none => .error cyclicErrorMsg
        | some v => sortLoop vmap fuel (pending.erase v) (calculated ++ [v])

/-- `AcslSort.sort` restricted to its ordering core: compute
`calculation_order` from the variable map, scanning the pending set in
the order given by `pending` (CPython set iteration order is fixed but
unspecified; the claims quantify over it). -/
def sortVars (vmap : VarMap) (pending : List String) :
    Except String (List String) :=
  sortLoop vmap pending.length pending []

/-- `AcslSort._build_sorted_ast`, projected to what each emitted
statement assigns and reads: the statements of `calculation_order` in
order, each tagged with its (filtered) dependencies. -/
def buildSortedBody (vmap : VarMap) (order : List String) :
    List (String × List String) :=
  order.map fun v => (v, lookupDeps vmap v)

/-- What `pick_next_variable` guarantees about a successful pick: the
variable is pending and each of its dependencies is already calculated. -/
theorem pick_next_variable_spec {pending calculated : List String}
    {vmap : VarMap} {v : String}
    (h : pick_next_variable pending calculated vmap = some v) :
    v ∈ pending ∧ ∀ d ∈ lookupDeps vmap v, d ∈ calculated := by
  unfold pick_next_variable at h
  refine ⟨List.mem_of_find?_eq_some h, ?_⟩
  have hp := List.find?_some h
  simp only [Bool.or_eq_true, List.isEmpty_iff, List.all_eq_true] at hp
  intro d hd
  rcases hp with hnil | hall
  · simp [hnil] at hd
  · have := hall d hd
    exact List.elem_iff.mp this

/-- An order is dependency-sound relative to already-emitted names. -/
def SortedFrom (vmap : VarMap) : List String → List String → Prop
  | _, [] => True
  | done, v :: rest =>
    (∀ d ∈ lookupDeps vmap v, d ∈ done) ∧ SortedFrom vmap (done ++ [v]) rest

theorem sortLoop_sortedFrom (vmap : VarMap) :
    ∀ (fuel : Nat) (pending calculated order : List String),
      sortLoop vmap fuel pending calculated = .ok order →
      ∃ rest, order = calculated ++ rest ∧ SortedFrom vmap calculated rest := by
  intro fuel
  induction fuel with
  | zero =>
    intro pending calculated order h
    unfold sortLoop at h
    by_cases hp : pending.isEmpty <;> simp [hp] at h
    exact ⟨[], by simp [h.symm], trivial⟩
  | succ f ih =>
    intro pending calculated order h
    unfold sortLoop at h
    by_cases hp : pending.isEmpty <;> simp [hp] at h
    · exact ⟨[], by simp [h.symm], trivial⟩
    · cases hpick : pick_next_variable pending calculated vmap with
      | none => simp [hpick] at h
      | some v =>
        simp only [hpick] at h
        obtain ⟨rest', hord, hsf⟩ := ih _ _ _ h
        refine ⟨v :: rest', ?_, ?_⟩
        · simpa using hord
        · exact ⟨(pick_next_variable_spec hpick).2, hsf⟩

theorem SortedFrom_mem_take (vmap : VarMap) :
    ∀ (rest done : List String), SortedFrom vmap done rest →
      ∀ (i : Nat) (hi : i < rest.length) (d : String),
        d ∈ lookupDeps vmap (rest.get ⟨i, hi⟩) →
        d ∈ done ∨ d ∈ rest.take i := by
  intro rest
  induction rest with
  | nil => intro done _ i hi; simp at hi
  | cons v rest' ih =>
    intro done hsf i hi d hd
    cases i with
    | zero => exact Or.inl (hsf.1 d hd)
    | succ j =>
      have hj : j < rest'.length := by simpa using hi
      have := ih (done ++ [v]) hsf.2 j hj d hd
      rcases this with hdone | htake
      · rcases List.mem_append.mp hdone with h1 | h2
        · exact Or.inl h1
        · right
          simp only [List.take_succ_cons]
          exact List.mem_cons.mpr (Or.inl (by simpa using h2))
      · right
        simp only [List.take_succ_cons]
        exact List.mem_cons.mpr (Or.inr htake)

/-- Looking a variable up in the filtered map filters its raw deps. -/
theorem lookupDeps_filterVariableMap (raw : VarMap)
    (stateVars constants : List String) (v : String) :
    lookupDeps (filterVariableMap raw stateVars constants) v
      = (lookupDeps raw v).filter
          (fun dep => ¬ (stateVars ++ constants ++ ["t"]).contains dep) := by
  induction raw with
  | nil => simp [lookupDeps, filterVariableMap]
  | cons p rest ih =>
    obtain ⟨k, deps⟩ := p
    by_cases hk : v == k
    · simp [lookupDeps, filterVariableMap, List.lookup, hk]
    · simp only [lookupDeps, filterVariableMap, List.lookup, hk] at ih ⊢
      exact ih

/-- C1 (sort soundness): whenever `AcslSort.sort` succeeds on a section's
variable map — for any scan order of the pending set — every dependency
of an emitted assignment that is not a constant, not a state variable and
not `t` is assigned by an earlier statement of the emitted body. -/
theorem sort_soundness (raw : VarMap) (stateVars constants : List String)
    (pending order : List String)
    (h : sortVars (filterVariableMap raw stateVars constants) pending = .ok order) :
    ∀ (i : Nat) (hi : i < (buildSortedBody raw order).length) (d : String),
      d ∈ ((buildSortedBody raw order).get ⟨i, hi⟩).2 →
      d ∉ constants → d ∉ stateVars → d ≠ "t" →
      d ∈ ((buildSortedBody raw order).take i).map Prod.fst := by
  intro i hi d hd hdc hds hdt
  have hlen : (buildSortedBody raw order).length = order.length := by
    simp [buildSortedBody]
  have hi' : i < order.length := hlen ▸ hi
  have hget : ((buildSortedBody raw order).get ⟨i, hi⟩).2
      = lookupDeps raw (order.get ⟨i, hi'⟩) := by
    simp [buildSortedBody]
  rw [hget] at hd
  -- the filtered map keeps exactly the non-constant, non-state, non-t deps
  have hdf : d ∈ lookupDeps (filterVariableMap raw stateVars constants)
      (order.get ⟨i, hi'⟩) := by
    rw [lookupDeps_filterVariableMap]
    refine List.mem_filter.mpr ⟨hd, ?_⟩
    simp only [decide_eq_true_eq]
    intro hc
    have : d ∈ stateVars ++ constants ++ ["t"] := List.elem_iff.mp hc
    simp only [List.mem_append, List.mem_singleton] at this
    tauto
  obtain ⟨rest, hord, hsf⟩ := sortLoop_sortedFrom _ _ _ _ _ h
  have hrest : order = rest := by simpa using hord
  subst hrest
  have := SortedFrom_mem_take _ order [] hsf i hi' d hdf
  rcases this with habs | htake
  · simp at habs
  · have : ((buildSortedBody raw order).take i).map Prod.fst = order.take i := by
      simp only [buildSortedBody, ← List.map_take, List.map_map]
      rw [show (Prod.fst ∘ fun v => (v, lookupDeps raw v)) = id from rfl,
        List.map_id]
    rw [this]
    exact htake

theorem sort_soundness_witness :
    "a" ∈ ((buildSortedBody [("b", ["a"]), ("a", [])] ["a", "b"]).take 1).map
      Prod.fst :=
  sort_soundness [("b", ["a"]), ("a", [])] [] [] ["b", "a"] ["a", "b"]
    (by decide) 1 (by decide) "a" (by decide) (by decide) (by decide) (by decide)

/-- Core of the cyclic-failure argument: a nonempty pending subset whose
members all depend on a member of the subset can never be picked, so the
sort loop must end in the `ValueError`. -/
theorem sortLoop_cycle_error (vmap : VarMap) (S : List String) (hne : S ≠ [])
    (hcyc : ∀ v ∈ S, ∃ d ∈ lookupDeps vmap v, d ∈ S) :
    ∀ (fuel : Nat) (pending calculated : List String),
      (∀ v ∈ S, v ∈ pending) → (∀ v ∈ S, v ∉ calculated) →
      sortLoop vmap fuel pending calculated = .error cyclicErrorMsg := by
  intro fuel
  induction fuel with
  | zero =>
    intro pending calculated hsub _
    obtain ⟨v0, hv0⟩ := List.exists_mem_of_ne_nil S hne
    have hp : ¬ pending.isEmpty := by
      rw [List.isEmpty_iff]
      intro hnil
      exact absurd (hsub v0 hv0) (by simp [hnil])
    unfold sortLoop
    simp [hp]
  | succ f ih =>
    intro pending calculated hsub hdisj
    obtain ⟨v0, hv0⟩ := List.exists_mem_of_ne_nil S hne
    have hp : ¬ pending.isEmpty := by
      rw [List.isEmpty_iff]
      intro hnil
      exact absurd (hsub v0 hv0) (by simp [hnil])
    unfold sortLoop
    simp only [hp, if_neg, Bool.false_eq_true, not_false_eq_true, if_false]
    cases hpick : pick_next_variable pending calculated vmap with
    | none => simp
    | some v =>
      simp only []
      obtain ⟨-, hdeps⟩ := pick_next_variable_spec hpick
      have hvS : v ∉ S := by
        intro hvS
        obtain ⟨d, hd, hdS⟩ := hcyc v hvS
        exact hdisj d hdS (hdeps d hd)
      apply ih
      · intro u hu
        have hne' : u ≠ v := by
          intro he
          exact hvS (he ▸ hu)
        exact (List.mem_erase_of_ne hne').mpr (hsub u hu)
      · intro u hu
        simp only [List.mem_append, List.mem_singleton]
        rintro (hc | rfl)
        · exact hdisj u hu hc
        · exact hvS hu

/-- C5 (amended): if some nonempty subset of the pending variables is
cyclically dependent (each member reads a member of the subset), the
sorter fails with the `ValueError` whose message is the fixed string
"Not possible to calculate any of the remaining variables" — a message
that does not name the remaining variables. -/
theorem sort_cycle_error (vmap : VarMap) (pending S : List String)
    (hne : S ≠ []) (hsub : ∀ v ∈ S, v ∈ pending)
    (hcyc : ∀ v ∈ S, ∃ d ∈ lookupDeps vmap v, d ∈ S) :
    sortVars vmap pending = .error cyclicErrorMsg :=
  sortLoop_cycle_error vmap S hne hcyc pending.length pending [] hsub
    (by simp)

theorem sort_cycle_error_witness :
    sortVars [("x", ["y"]), ("y", ["x"])] ["x", "y"] = .error cyclicErrorMsg :=
  sort_cycle_error [("x", ["y"]), ("y", ["x"])] ["x", "y"] ["x", "y"]
    (by decide) (by decide) (by decide)

/-- C5 counterexample: sorting the cyclic pair `x = y + 1; y = x + 1`
raises the cyclic `ValueError`, but its message does not mention the
variable `x` at all (it is a fixed string independent of the variable
map), refuting "an error whose message names the remaining variables". -/
theorem sort_cycle_message_counterexample :
    sortVars [("x", ["y"]), ("y", ["x"])] ["x", "y"] = .error cyclicErrorMsg
    ∧ cyclicErrorMsg.toList.contains 'x' = false := by
  constructor
  · exact sort_cycle_error_witness
  · decide

/-! ### Constant manager and CINT resolution theorems -/

theorem lookup_eq_none_of_not_contains (d : ConstDict) (k : String)
    (h : dictContains d k = false) : d.lookup k = none := by
  induction d with
  | nil => rfl
  | cons p rest ih =>
    simp only [dictContains, List.any_cons, Bool.or_eq_false_iff] at h
    obtain ⟨h1, h2⟩ := h
    have hk : (k == p.1) = false := by
      cases hbe : (k == p.1) with
      | false => rfl
      | true =>
        have hkp : k = p.1 := by simpa using hbe
        rw [hkp] at h1
        simp at h1
    simp only [List.lookup, hk]
    exact ih (by simpa [dictContains] using h2)

theorem lookup_append_dict (d e : ConstDict) (k : String) :
    (d ++ e).lookup k =
      match d.lookup k with
      | some v => some v
      | none => e.lookup k := by
  induction d with
  | nil => simp [List.lookup]
  | cons p rest ih =>
    by_cases hk : k == p.1
    · simp [List.lookup, hk]
    · simp only [List.cons_append, List.lookup, hk]
      exact ih

/-- C10 (atomicity of `set_constant`): when any of the three checks
raises, the constants dictionary is unchanged; on success exactly the new
binding is appended and every existing binding keeps its value. -/
theorem set_constant_atomic (name value : PyVal) (d : ConstDict) :
    (∀ e, (set_constant name value d).1 = some e →
      (set_constant name value d).2 = d)
    ∧ ((set_constant name value d).1 = none →
        ∃ s, name = .pystr s
          ∧ (set_constant name value d).2 = d ++ [(s, value)]
          ∧ (set_constant name value d).2.lookup s = some value
          ∧ ∀ k, k ≠ s → (set_constant name value d).2.lookup k = d.lookup k) := by
  cases name with
  | pystr s =>
    by_cases hv : isValidConstType value
    · by_cases hc : dictContains d s
      · exact ⟨fun e _ => by simp [set_constant, hv, hc],
          fun h => by simp [set_constant, hv, hc] at h⟩
      · have hcf : dictContains d s = false := by simpa using hc
        have hnone := lookup_eq_none_of_not_contains d s hcf
        constructor
        · intro e he
          simp [set_constant, hv, hcf] at he
        · intro _
          refine ⟨s, rfl, by simp [set_constant, hv, hcf], ?_, ?_⟩
          · simp only [set_constant, hv, hcf]
            simp only [not_true_eq_false, if_false, Bool.false_eq_true]
            rw [lookup_append_dict, hnone]
            simp [List.lookup]
          · intro k hk
            have hbe : (k == s) = false := by
              cases hbe : (k == s) with
              | false => rfl
              | true => exact absurd (by simpa using hbe) hk
            simp only [set_constant, hv, hcf]
            simp only [not_true_eq_false, if_false, Bool.false_eq_true]
            cases hdk : d.lookup k <;>
              rw [lookup_append_dict, hdk] <;> simp [List.lookup, hbe]
    · have hvf : isValidConstType value = false := by simpa using hv
      exact ⟨fun e _ => by simp [set_constant, hvf],
        fun h => by simp [set_constant, hvf] at h⟩
  | pyint i => exact ⟨fun e _ => rfl, fun h => by simp [set_constant] at h⟩
  | pyfloat q => exact ⟨fun e _ => rfl, fun h => by simp [set_constant] at h⟩
  | pybool b => exact ⟨fun e _ => rfl, fun h => by simp [set_constant] at h⟩
  | pylist l => exact ⟨fun e _ => rfl, fun h => by simp [set_constant] at h⟩
  | pynone => exact ⟨fun e _ => rfl, fun h => by simp [set_constant] at h⟩

theorem set_constant_atomic_witness :
    (set_constant (.pystr "k") (.pyint 7) initConstants).2
      = initConstants ++ [("k", .pyint 7)] := by
  obtain ⟨s, hs, happ, -⟩ :=
    (set_constant_atomic (.pystr "k") (.pyint 7) initConstants).2 (by decide)
  cases hs
  exact happ

/-- C7 (amended): a fresh `ConstantManager` pre-registers `t` with value
0, and re-registering any existing name raises — the already-defined
`ValueError` when the new value has a valid constant type, and the
invalid-type `TypeError` (checked first) when it does not. -/
theorem set_constant_redefine (d : ConstDict) (name : String) (v : PyVal)
    (hmem : dictContains d name = true) :
    initConstants.lookup "t" = some (.pyint 0)
    ∧ (isValidConstType v = true →
        (set_constant (.pystr name) v d).1 = some (.alreadyDefined name))
    ∧ (isValidConstType v = false →
        (set_constant (.pystr name) v d).1 = some (.invalidType name)) := by
  refine ⟨rfl, ?_, ?_⟩
  · intro hv
    simp [set_constant, hv, hmem]
  · intro hv
    simp [set_constant, hv]

theorem set_constant_redefine_witness :
    (set_constant (.pystr "t") (.pyint 5) initConstants).1
      = some (.alreadyDefined "t") :=
  (set_constant_redefine initConstants "t" (.pyint 5) (by decide)).2.1 (by decide)

/-- C7 counterexample: calling `set_constant` on the already-present name
`t` with a string value raises the invalid-type `TypeError`, not an
already-defined error — so it is not true that redefining with *any*
value raises an already-defined error. -/
theorem set_constant_redefine_counterexample :
    (set_constant (.pystr "t") (.pystr "oops") initConstants).1
        = some (.invalidType "t")
    ∧ (set_constant (.pystr "t") (.pystr "oops") initConstants).1
        ≠ some (.alreadyDefined "t") := by
  decide

/-- C3 (amended): the CINT priority implemented by `AcslBuild.build` is
constant-named-CINT over caller value over DYNAMIC assignment, with
default 1, and any non-`int` resolution falls back to 1. -/
theorem resolveCINT_priority (caller : PyVal) (constants settings : ConstDict) :
    (∀ v, constants.lookup "CINT" = some v → isPyInt v = true →
      resolveCINT caller constants settings = v)
    ∧ (∀ v, constants.lookup "CINT" = some v → v ≠ .pynone → isPyInt v = false →
      resolveCINT caller constants settings = .pyint 1)
    ∧ (constants.lookup "CINT" = none → caller ≠ .pynone → isPyInt caller = true →
      resolveCINT caller constants settings = caller)
    ∧ (constants.lookup "CINT" = none → caller = .pynone →
        ∀ v, settings.lookup "CINT" = some v → isPyInt v = true →
          resolveCINT caller constants settings = v)
    ∧ (constants.lookup "CINT" = none → caller = .pynone →
        settings.lookup "CINT" = none →
        resolveCINT caller constants settings = .pyint 1) := by
  refine ⟨?_, ?_, ?_, ?_, ?_⟩
  · intro v hv hint
    unfold resolveCINT dictGet
    rw [hv]
    cases v <;> simp_all [isPyInt]
  · intro v hv hvn hint
    unfold resolveCINT dictGet
    rw [hv]
    cases v <;> simp_all [isPyInt]
  · intro hnone hcne hint
    unfold resolveCINT dictGet
    rw [hnone]
    cases caller <;> simp_all [isPyInt]
  · intro hnone hcnone v hv hint
    subst hcnone
    unfold resolveCINT dictGet
    rw [hnone, hv]
    cases v <;> simp_all [isPyInt]
  · intro hnone hcnone hsnone
    subst hcnone
    unfold resolveCINT dictGet
    rw [hnone, hsnone]
    simp [isPyInt]

theorem resolveCINT_priority_witness :
    resolveCINT (.pyint 2) [] [("CINT", .pyint 5)] = .pyint 2 :=
  (resolveCINT_priority (.pyint 2) [] [("CINT", .pyint 5)]).2.2.1
    (by decide) (by decide) (by decide)

/-- C3 counterexample: the caller passes CINT = 2 while a constant named
CINT is defined with value 5; the final CINT is 5, not 2 — the constant
overrides the caller, the reverse of the claimed priority. -/
theorem resolveCINT_counterexample :
    resolveCINT (.pyint 2) [("CINT", .pyint 5)] [] = .pyint 5
    ∧ resolveCINT (.pyint 2) [("CINT", .pyint 5)] [] ≠ .pyint 2 := by
  decide

/-! ### Section-statement syntax (the `ast` node shapes the parser visits) -/

/-- The expression shapes inspected by `FunctionParser`,
`IntegFunctionCreator` and `StatevarCollector`. -/
inductive PyExpr where
  | name (id : String)
  | const (value : PyVal)
  | binop (left right : PyExpr)
  | unaryop (operand : PyExpr)
  | subscript (value slice : PyExpr)
  | call (func : PyExpr) (args : List PyExpr) (keywords : List String)
  | attribute (value : PyExpr) (attr : String)
  | tuple (elts : List PyExpr)
  | listlit (elts : List PyExpr)

/-- The Python class name of a node, for the `No method for handling`
messages. -/
def typeName : PyExpr → String
  | .name _ => "ast.Name"
  | .const _ => "ast.Constant"
  | .binop _ _ => "ast.BinOp"
  | .unaryop _ => "ast.UnaryOp"
  | .subscript _ _ => "ast.Subscript"
  | .call _ _ _ => "ast.Call"
  | .attribute _ _ => "ast.Attribute"
  | .tuple _ => "ast.Tuple"
  | .listlit _ => "ast.List"

def isNameExpr : PyExpr → Bool
  | .name _ => true
  | _ => false

/-- Statements of a section body, as classified by the visitors. -/
inductive PyStmt where
  | assign (targets : List PyExpr) (value : PyExpr)
  | exprStmt (value : PyExpr)

/-- Errors raised while parsing statements. -/
inductive ParseError where
  | indexError
  | valueError (msg : String)
  | typeError (msg : String)
deriving DecidableEq, Repr

/-- Python dict assignment `d[k] = v` on an insertion-ordered dict. -/
def dictSet {b : Type} : List (String × b) → String → b → List (String × b)
  | [], k, v => [(k, v)]
  | (k0, v0) :: rest, k, v =>
    if k0 == k then (k, v) :: rest else (k0, v0) :: dictSet rest k v

mutual
/-- `FunctionParser._collect_binop`: names from the two operands;
nested binops and subscripts recurse, anything else contributes
nothing. -/
def collect_binop (left right : PyExpr) : Except ParseError (List String) := do
  let lv ← match left with
    | .name id => pure [id]
    | .binop a b => collect_binop a b
    | .subscript v s => collect_subscript v s
    | _ => pure []
  let rv ← match right with
    | .name id => pure [id]
    | .binop a b => collect_binop a b
    | .subscript v s => collect_subscript v s
    | _ => pure []
  pure (lv ++ rv)
termination_by sizeOf left + sizeOf right

/-- `FunctionParser._collect_subscript`: names from the value and the
slice; unsupported shapes raise `TypeError`. -/
def collect_subscript (value slice : PyExpr) : Except ParseError (List String) := do
  let vv ← match value with
    | .name id => pure [id]
    | .binop a b => collect_binop a b
    | .subscript a b => collect_subscript a b
    | e => Except.error (.typeError
        ("No method for handling " ++ typeName e ++ " in a subscript"))
  let sv ← match slice with
    | .name id => pure [id]
    | .binop a b => collect_binop a b
    | .subscript a b => collect_subscript a b
    | e => Except.error (.typeError
        ("No method for handling " ++ typeName e ++ " in a subscript"))
  pure (vv ++ sv)
termination_by sizeOf value + sizeOf slice
end

/-- `FunctionParser._collect_unaryop`. -/
def collect_unaryop (operand : PyExpr) : Except ParseError (List String) :=
  match operand with
  | .name id => pure [id]
  | .binop a b => collect_binop a b
  | .unaryop o => collect_unaryop o
  | e => Except.error (.typeError
      ("No method for handling " ++ typeName e ++ " in a unaryop"))

/-- `FunctionParser._collect_call`: names of positional `Name` arguments
plus keyword *names* (the source's noted quirk), and whether the callee
is an `integ` call (making the target a state variable). -/
def collect_call (func : PyExpr) (args : List PyExpr) (keywords : List String) :
    List String × Bool :=
  let vars := args.filterMap (fun a =>
    match a with
    | .name id => some id
    | _ => none)
  let vars := vars ++ keywords
  let is_state_var :=
    match func with
    | .name id => id == "integ"
    | .attribute _ attr => attr == "integ"
    | _ => false
  (vars, is_state_var)

/-- `FunctionParser._collect_assign`: reject tuple/list unpacking of the
first target, collect dependencies from the right-hand side, then record
every `Name` target.  Mirrors the source's checks in order. -/
def collect_assign (variable_map : VarMap) (state_variables : List String)
    (targets : List PyExpr) (value : PyExpr) :
    Except ParseError (VarMap × List String) := do
  match targets.head? with
  | none => Except.error .indexError
  | some t0 =>
    let isUnpack :=
      match t0 with
      | .tuple _ => true
      | .listlit _ => true
      | _ => false
    if isUnpack then
      Except.error (.valueError "Multiple targets in assignment is not allowed")
    else do
      let res ← match value with
        | .binop l r => do pure ((← collect_binop l r), false)
        | .call f args kws => pure (collect_call f args kws)
        | .unaryop o => do pure ((← collect_unaryop o), false)
        | .name id => pure ([id], false)
        | .subscript v s => do pure ((← collect_subscript v s), false)
        | e => Except.error (.typeError ("No method for handling " ++ typeName e))
      let parameters := res.1
      let is_state_var := res.2
      pure (targets.foldl (fun acc t =>
        match t with
        | .name id =>
          (dictSet acc.1 id parameters,
            if is_state_var then acc.2 ++ [id] else acc.2)
        | _ => acc) (variable_map, state_variables))

/-! ### Integ-call detection (C8) and assignment targets (C9) -/

/-- One iteration of the statement scan in
`IntegFunctionCreator._detect_integ_calls`: record `(diff_var, target)`
for `target = self.integ(diff_var, ...)` when the first argument is a
plain name; otherwise the statement contributes nothing. -/
def detectStep (acc : List (String × String)) (stmt : PyStmt) :
    List (String × String) :=
  match stmt with
  | .assign [.name target_id] (.call (.attribute (.name base) attr) args _) =>
    if base == "self" && attr == "integ" then
      match args with
      | .name diff_var :: _ => acc ++ [(diff_var, target_id)]
      | _ => acc
    else acc
  | _ => acc

/-- `IntegFunctionCreator._detect_integ_calls` over a section body. -/
def detect_integ_calls (body : List PyStmt) : List (String × String) :=
  body.foldl detectStep []

/-- An initial-condition entry of `StatevarCollector.integ_calls`: either
a constant name or a literal value. -/
inductive ICVal where
  | fromName (s : String)
  | fromConst (v : PyVal)
deriving DecidableEq, Repr

/-- Exceptions `StatevarCollector.visit_Assign` can raise: the Python
`IndexError` from `node.value.args[1]`, the `AttributeError` from
`node.targets[0].id` on a non-`Name` target, and the explicit
`ValueError`. -/
inductive VisitError where
  | indexError
  | attributeError
  | valueError (msg : String)
deriving DecidableEq, Repr

/-- `StatevarCollector.visit_Assign`: record the initial condition of an
`integ` call; non-integ assignments pass through untouched. -/
def statevar_visit_assign (integ_calls : List (String × ICVal))
    (targets : List PyExpr) (value : PyExpr) :
    Except VisitError (List (String × ICVal)) :=
  match value with
  | .call (.attribute _ attr) args _ =>
    if attr == "integ" then
      if targets.length == 1 then
        match args.get? 1 with
        | none => .error .indexError
        | some a1 =>
          match a1 with
          | .name ic_id =>
            match targets with
            | [.name tid] => .ok (dictSet integ_calls tid (.fromName ic_id))
            | _ => .error .attributeError
          | .const v =>
            match targets with
            | [.name tid] => .ok (dictSet integ_calls tid (.fromConst v))
            | _ => .error .attributeError
          | _ => .error (.valueError "Expected 1 target for integ call, got 1")
      else .error (.valueError "Expected 1 target for integ call")
    else .ok integ_calls
  | _ => .ok integ_calls

/-- C8 (amended): an integ call whose derivative (first) argument is not
a plain name is *silently skipped* by `_detect_integ_calls` (it
contributes nothing, and no error is raised), while
`StatevarCollector.visit_Assign` happily records its initial condition —
processing such a section does not raise. -/
theorem integ_nonname_deriv_skipped (tgt : String) (arg0 : PyExpr)
    (rest : List PyExpr) (kws : List String) (body1 body2 : List PyStmt)
    (calls : List (String × ICVal)) (h0 : isNameExpr arg0 = false) :
    detect_integ_calls (body1 ++
        (.assign [.name tgt]
          (.call (.attribute (.name "self") "integ") (arg0 :: rest) kws))
        :: body2)
      = detect_integ_calls (body1 ++ body2)
    ∧ ∀ v rest2, rest = .const v :: rest2 →
        statevar_visit_assign calls [.name tgt]
            (.call (.attribute (.name "self") "integ") (arg0 :: rest) kws)
          = .ok (dictSet calls tgt (.fromConst v)) := by
  constructor
  · have hskip : ∀ acc,
        detectStep acc
          (.assign [.name tgt]
            (.call (.attribute (.name "self") "integ") (arg0 :: rest) kws))
          = acc := by
      intro acc
      cases arg0 <;> simp_all [detectStep, isNameExpr]
    unfold detect_integ_calls
    rw [List.foldl_append, List.foldl_cons, hskip, ← List.foldl_append]
  · intro v rest2 hrest
    subst hrest
    cases arg0 <;> simp_all [statevar_visit_assign, isNameExpr]

theorem integ_nonname_deriv_skipped_witness :
    statevar_visit_assign [] [.name "x"]
        (.call (.attribute (.name "self") "integ")
          [.const (.pyfloat 2), .const (.pyfloat 1)] [])
      = .ok (dictSet [] "x" (.fromConst (.pyfloat 1))) :=
  (integ_nonname_deriv_skipped "x" (.const (.pyfloat 2)) [.const (.pyfloat 1)]
    [] [] [] [] rfl).2 (.pyfloat 1) [] rfl

/-- C8 counterexample: processing the section body consisting of
`x = self.integ(2.0, 1.0)` — an integ call whose derivative argument is
a literal — raises nothing: integ detection returns the empty mapping
and the statevar collector records `x -> 1.0`. -/
theorem integ_nonname_deriv_counterexample :
    detect_integ_calls
        [.assign [.name "x"]
          (.call (.attribute (.name "self") "integ")
            [.const (.pyfloat 2), .const (.pyfloat 1)] [])]
      = []
    ∧ statevar_visit_assign [] [.name "x"]
        (.call (.attribute (.name "self") "integ")
          [.const (.pyfloat 2), .const (.pyfloat 1)] [])
      = .ok [("x", .fromConst (.pyfloat 1))] := by
  constructor
  · rfl
  · rfl

/-- C9 (code bug): `_collect_assign` promises a `ValueError` for
assignments with multiple targets, but a chained assignment
`x = y = a + 1` (two `Name` targets) passes the `Tuple`/`List` check and
is accepted, recording both `x` and `y`; a subscript target
`d[0] = a + 1` is likewise accepted and silently ignored. -/
theorem collect_assign_nonname_targets_accepted :
    collect_assign [] [] [.name "x", .name "y"]
        (.binop (.name "a") (.const (.pyint 1)))
      = .ok ([("x", ["a"]), ("y", ["a"])], [])
    ∧ collect_assign [] [] [.subscript (.name "d") (.const (.pyint 0))]
        (.binop (.name "a") (.const (.pyint 1)))
      = .ok ([], []) := by
  constructor
  · simp [collect_assign, collect_binop, dictSet]
    rfl
  · simp [collect_assign, collect_binop, dictSet]
    rfl

/-! ### Integration manager (integration/integration_manager.py) -/

/-- The keyword-argument dictionary handed to a derivative kernel. -/
abbrev Kwargs := List (String × ℚ)

/-- `IntegrationManager._get_kwargs`: seed the state variable from the
previous step, then copy every other argument from the previous step. -/
def get_kwargs (arg_names : List String) (state_var : String)
    (time_state : String → ℚ) : Kwargs :=
  arg_names.foldl
    (fun kwargs arg_name =>
      if arg_name == state_var then kwargs
      else dictSet kwargs arg_name (time_state arg_name))
    (dictSet [] state_var (time_state state_var))

/-- `IntegrationManager.set_step_size`. -/
def set_step_size (MAXT CINT NSTP : ℚ) : ℚ :=
  min MAXT (CINT / NSTP)

/-- Errors `integrate` can raise: the `NotImplementedError`s of the
stubbed algorithms, the `TypeError` from calling the `None` stored at
slot 6, and the `KeyError` of an id outside the method table. -/
inductive IntegError where
  | notImplemented (msg : String)
  | noneNotCallable
  | keyError (ialg : Int)
deriving DecidableEq, Repr

def IntegError.isNotImplemented : IntegError → Bool
  | .notImplemented _ => true
  | _ => false

/-- The `ValueError` raised by the constructor for an id outside 1-10. -/
inductive ConfigError where
  | invalidIALG (ialg : Int)
deriving DecidableEq, Repr

/-- The state held by an `IntegrationManager`.  A derivative entry is the
kernel together with its ordered argument names (the synthesizer places
the state variable last). -/
structure IntegrationManager where
  IALG : Int
  MAXT : ℚ
  NSTP : ℚ
  CINT : ℚ
  derivative_functions : String → (Kwargs → ℚ) × List String
  step_size : ℚ

/-- `IntegrationManager.__init__`: reject an id outside the method
table (keys 1-10), then compute the fixed step size. -/
def mkIntegrationManager (IALG : Int) (MAXT NSTP CINT : ℚ)
    (derivative_functions : String → (Kwargs → ℚ) × List String) :
    Except ConfigError IntegrationManager :=
  if IALG < 1 ∨ 10 < IALG then .error (.invalidIALG IALG)
  else .ok
    { IALG := IALG, MAXT := MAXT, NSTP := NSTP, CINT := CINT
      derivative_functions := derivative_functions
      step_size := set_step_size MAXT CINT NSTP }

/-- `IntegrationManager.runge_kutta_fourth_order`, line for line: each
stage overwrites only the state-variable entry of the kwargs dict. -/
def runge_kutta_fourth_order (mgr : IntegrationManager) (deriv_name : String)
    (ic : ℚ) (time_state : String → ℚ) : ℚ :=
  let entry := mgr.derivative_functions deriv_name
  let deriv_function := entry.1
  let arg_names := entry.2
  let state_var := arg_names.getLastD ""
  let kwargs := get_kwargs arg_names state_var time_state
  let kwargs1 := dictSet kwargs state_var ic
  let k1 := deriv_function kwargs1
  let kwargs2 := dictSet kwargs1 state_var (ic + (mgr.step_size * k1) / 2)
  let k2 := deriv_function kwargs2
  let kwargs3 := dictSet kwargs2 state_var (ic + mgr.step_size * k2)
  let k3 := deriv_function kwargs3
  let kwargs4 := dictSet kwargs3 state_var (ic + mgr.step_size * k3)
  let k4 := deriv_function kwargs4
  ic + (mgr.step_size / 6) * (k1 + 2 * k2 + 2 * k3 + k4)

/-- `IntegrationManager.integrate`: dispatch through `integ_methods`.
Slot 6 holds `None`, so calling it raises the `TypeError`; ids outside
the table raise `KeyError` (unreachable after the constructor check). -/
def integrate (mgr : IntegrationManager) (deriv_name : String) (ic : ℚ)
    (time_state : String → ℚ) : Except IntegError ℚ :=
  if mgr.IALG = 1 then
    .error (.notImplemented "Adams-Moulton integration is not implemented")
  else if mgr.IALG = 2 then
    .error (.notImplemented "Gear's stiff integration is not implemented")
  else if mgr.IALG = 3 then
    .error (.notImplemented "Runge-Kutta (Euler) integration is not implemented")
  else if mgr.IALG = 4 then
    .error (.notImplemented
      "Runge-Kutta (second order) integration is not implemented")
  else if mgr.IALG = 5 then
    .ok (runge_kutta_fourth_order mgr deriv_name ic time_state)
  else if mgr.IALG = 6 then
    .error .noneNotCallable
  else if mgr.IALG = 7 then
    .error (.notImplemented
      "User-supplied subroutine integration is not implemented")
  else if mgr.IALG = 8 then
    .error (.notImplemented
      "Runge-Kutta-Fehlberg (second order) integration is not implemented")
  else if mgr.IALG = 9 then
    .error (.notImplemented
      "Runge-Kutta-Fehlberg (fifth order) integration is not implemented")
  else if mgr.IALG = 10 then
    .error (.notImplemented "Differential algebraic system solver is not implemented")
  else
    .error (.keyError mgr.IALG)

/-- C6 (amended): every id 1-10 is accepted by the constructor; the
stubbed ids 1-4 and 7-10 fail in `integrate` with a `NotImplementedError`
(distinguishable from the constructor's `ValueError`, a different type),
but id 6 is a `None` slot: construction succeeds and `integrate` raises
the `TypeError` from calling `None`, not a not-implemented error. -/
theorem integ_stub_and_none_errors (MAXT NSTP CINT : ℚ)
    (derivs : String → (Kwargs → ℚ) × List String) (d : String) (ic : ℚ)
    (ts : String → ℚ) (ialg : Int) (hlo : 1 ≤ ialg) (hhi : ialg ≤ 10) :
    (∃ mgr, mkIntegrationManager ialg MAXT NSTP CINT derivs = .ok mgr)
    ∧ (∀ mgr, mkIntegrationManager ialg MAXT NSTP CINT derivs = .ok mgr →
        ialg ≠ 5 → ialg ≠ 6 →
        ∃ msg, integrate mgr d ic ts = .error (.notImplemented msg))
    ∧ (∀ mgr, mkIntegrationManager ialg MAXT NSTP CINT derivs = .ok mgr →
        ialg = 6 → integrate mgr d ic ts = .error .noneNotCallable) := by
  have hmk : mkIntegrationManager ialg MAXT NSTP CINT derivs
      = .ok { IALG := ialg, MAXT := MAXT, NSTP := NSTP, CINT := CINT,
              derivative_functions := derivs,
              step_size := set_step_size MAXT CINT NSTP } := by
    unfold mkIntegrationManager
    rw [if_neg]
    push_neg
    exact ⟨by omega, by omega⟩
  refine ⟨⟨_, hmk⟩, ?_, ?_⟩
  · intro mgr hm h5 h6
    rw [hmk] at hm
    cases hm
    interval_cases ialg
    · exact ⟨_, rfl⟩
    · exact ⟨_, rfl⟩
    · exact ⟨_, rfl⟩
    · exact ⟨_, rfl⟩
    · exact absurd rfl h5
    · exact absurd rfl h6
    · exact ⟨_, rfl⟩
    · exact ⟨_, rfl⟩
    · exact ⟨_, rfl⟩
    · exact ⟨_, rfl⟩
  · intro mgr hm h6
    subst h6
    rw [hmk] at hm
    cases hm
    rfl

theorem integ_stub_and_none_errors_witness :
    integrate { IALG := 6, MAXT := 1, NSTP := 1, CINT := 1,
                derivative_functions := fun _ => (fun _ => 0, []),
                step_size := set_step_size 1 1 1 } "d" 0 (fun _ => 0)
      = .error .noneNotCallable :=
  (integ_stub_and_none_errors 1 1 1 (fun _ => (fun _ => 0, [])) "d" 0
    (fun _ => 0) 6 (by norm_num) (by norm_num)).2.2 _ rfl rfl

/-- C6 counterexample: with IALG = 6 construction succeeds, but
`integrate` raises the `TypeError` from calling the `None` stored in the
method table — not a not-implemented error as claimed. -/
theorem integ_ialg6_counterexample :
    mkIntegrationManager 6 1 1 1 (fun _ => (fun _ => 0, []))
      = .ok { IALG := 6, MAXT := 1, NSTP := 1, CINT := 1,
              derivative_functions := fun _ => (fun _ => 0, []),
              step_size := set_step_size 1 1 1 }
    ∧ integrate { IALG := 6, MAXT := 1, NSTP := 1, CINT := 1,
                  derivative_functions := fun _ => (fun _ => 0, []),
                  step_size := set_step_size 1 1 1 } "d" 0 (fun _ => 0)
      = .error .noneNotCallable
    ∧ IntegError.noneNotCallable.isNotImplemented = false :=
  ⟨rfl, rfl, rfl⟩

/-! ### C2: the RK4 step computes the claimed formula -/

theorem dictSet_lookup_self {b : Type} (kw : List (String × b)) (k : String)
    (v : b) : (dictSet kw k v).lookup k = some v := by
  induction kw with
  | nil => simp [dictSet, List.lookup]
  | cons p rest ih =>
    by_cases hk : p.1 == k
    · obtain ⟨k0, v0⟩ := p
      simp only [dictSet]
      rw [if_pos hk]
      simp [List.lookup]
    · obtain ⟨k0, v0⟩ := p
      simp only [dictSet]
      rw [if_neg hk]
      have hk' : (k == k0) = false := by
        cases hbe : (k == k0) with
        | false => rfl
        | true =>
          rw [show k = k0 from by simpa using hbe] at hk
          simp at hk
      simp only [List.lookup, hk']
      exact ih

theorem dictSet_lookup_ne {b : Type} (kw : List (String × b)) (k k' : String)
    (v : b) (h : k' ≠ k) : (dictSet kw k v).lookup k' = kw.lookup k' := by
  have hbe : (k' == k) = false := by
    cases hbe : (k' == k) with
    | false => rfl
    | true => exact absurd (by simpa using hbe) h
  induction kw with
  | nil => simp [dictSet, List.lookup, hbe]
  | cons p rest ih =>
    obtain ⟨k0, v0⟩ := p
    by_cases hk : k0 == k
    · simp only [dictSet]
      rw [if_pos hk]
      have hk0 : (k' == k0) = false := by
        cases hbe2 : (k' == k0) with
        | false => rfl
        | true =>
          have : k0 = k := by simpa using hk
          rw [show k' = k0 from by simpa using hbe2, this] at hbe
          simp at hbe
      simp [List.lookup, hbe, hk0]
    · simp only [dictSet]
      rw [if_neg hk]
      by_cases hk0 : k' == k0
      · simp [List.lookup, hk0]
      · have hk0' : (k' == k0) = false := by simpa using hk0
        simp only [List.lookup, hk0']
        exact ih

theorem lookup_map_pair (l : List String) (g : String → ℚ) (k : String) :
    (l.map (fun a => (a, g a))).lookup k
      = if k ∈ l then some (g k) else none := by
  induction l with
  | nil => simp [List.lookup]
  | cons a rest ih =>
    by_cases hk : k == a
    · have hka : k = a := by simpa using hk
      subst hka
      simp [List.lookup]
    · have hk' : (k == a) = false := by simpa using hk
      have hne : k ≠ a := by simpa using hk
      simp only [List.map_cons, List.lookup, hk', List.mem_cons]
      rw [ih]
      by_cases hmem : k ∈ rest
      · simp [hmem]
      · simp [hmem, hne]

theorem get_kwargs_lookup (arg_names : List String) (state_var : String)
    (time_state : String → ℚ) (k : String) :
    (get_kwargs arg_names state_var time_state).lookup k
      = if k = state_var then some (time_state state_var)
        else if k ∈ arg_names then some (time_state k) else none := by
  have hbase : (dictSet ([] : Kwargs) state_var (time_state state_var)).lookup k
      = if k = state_var then some (time_state state_var) else none := by
    by_cases hk : k = state_var
    · subst hk
      simp [dictSet_lookup_self]
    · rw [dictSet_lookup_ne _ _ _ _ hk]
      simp [List.lookup, hk]
  have main : ∀ (args : List String) (kw0 : Kwargs),
      ((args.foldl
        (fun kwargs arg_name =>
          if arg_name == state_var then kwargs
          else dictSet kwargs arg_name (time_state arg_name)) kw0).lookup k)
        = if k ≠ state_var ∧ k ∈ args then some (time_state k)
          else kw0.lookup k := by
    intro args
    induction args with
    | nil => intro kw0; simp
    | cons a rest ih =>
      intro kw0
      rw [List.foldl_cons, ih]
      by_cases hmem : k ≠ state_var ∧ k ∈ rest
      · rw [if_pos hmem, if_pos ⟨hmem.1, List.mem_cons_of_mem a hmem.2⟩]
      · rw [if_neg hmem]
        by_cases hasv : a == state_var
        · rw [if_pos hasv]
          have hane : k ≠ state_var ∧ k ∈ a :: rest → False := by
            rintro ⟨hk1, hk2⟩
            rcases List.mem_cons.mp hk2 with rfl | hk3
            · exact hk1 (by simpa using hasv)
            · exact hmem ⟨hk1, hk3⟩
          rw [if_neg hane]
        · rw [if_neg hasv]
          by_cases hka : k = a
          · subst hka
            rw [dictSet_lookup_self]
            have : k ≠ state_var ∧ k ∈ k :: rest := by
              refine ⟨by simpa using hasv, List.mem_cons_self _ _⟩
            rw [if_pos this]
          · rw [dictSet_lookup_ne _ _ _ _ hka]
            have : ¬ (k ≠ state_var ∧ k ∈ a :: rest) := by
              rintro ⟨hk1, hk2⟩
              rcases List.mem_cons.mp hk2 with rfl | hk3
              · exact hka rfl
              · exact hmem ⟨hk1, hk3⟩
            rw [if_neg this]
  rw [get_kwargs, main]
  rw [hbase]
  by_cases hk : k = state_var
  · subst hk
    simp
  · by_cases hmem : k ∈ arg_names
    · rw [if_pos ⟨hk, hmem⟩, if_neg hk, if_pos hmem]
    · rw [if_neg (fun hc : _ ∧ _ => hmem hc.2), if_neg hk, if_neg hk,
        if_neg hmem]

/-- Modelled from the claim (spec side of the C2 refinement): the kwargs
a stage call is supposed to see — the state variable bound to the stage
value, every other argument bound to its previous-step value. -/
def specStageKwargs (arg_names : List String) (state_var : String)
    (ts : String → ℚ) (x : ℚ) : Kwargs :=
  (state_var, x)
    :: (arg_names.filter (fun a => !(a == state_var))).map (fun a => (a, ts a))

theorem specStageKwargs_lookup (arg_names : List String) (state_var : String)
    (ts : String → ℚ) (x : ℚ) (k : String) :
    (specStageKwargs arg_names state_var ts x).lookup k
      = if k = state_var then some x
        else if k ∈ arg_names then some (ts k) else none := by
  by_cases hk : k = state_var
  · subst hk
    simp [specStageKwargs, List.lookup]
  · have hbe : (k == state_var) = false := by
      cases hbe : (k == state_var) with
      | false => rfl
      | true => exact absurd (by simpa using hbe) hk
    simp only [specStageKwargs, List.lookup, hbe]
    rw [lookup_map_pair]
    by_cases hmem : k ∈ arg_names
    · rw [if_pos (List.mem_filter.mpr ⟨hmem, by simp [hbe]⟩), if_neg hk,
        if_pos hmem]
    · rw [if_neg (fun hc => hmem (List.mem_filter.mp hc).1), if_neg hk,
        if_neg hmem]

/-- Overwriting the state entry of any dict that agrees with the
freshly-built kwargs away from the state variable yields exactly the
stage kwargs of the claim, entry for entry. -/
theorem dictSet_stage_lookup (arg_names : List String) (state_var : String)
    (ts : String → ℚ) (base : Kwargs) (x : ℚ)
    (hbase : ∀ k, k ≠ state_var →
      base.lookup k = (get_kwargs arg_names state_var ts).lookup k)
    (k : String) :
    (dictSet base state_var x).lookup k
      = (specStageKwargs arg_names state_var ts x).lookup k := by
  by_cases hk : k = state_var
  · subst hk
    rw [dictSet_lookup_self, specStageKwargs_lookup]
    simp
  · rw [dictSet_lookup_ne _ _ _ _ hk, hbase k hk, get_kwargs_lookup,
      specStageKwargs_lookup, if_neg hk, if_neg hk]

/-- Modelled from the claim (spec side of the C2 refinement): the claimed
value of one RK4 step — `ic + (h/6)(k1 + 2k2 + 2k3 + k4)` with `k1 = f`
at `ic`, `k2 = f` at `ic + h k1/2`, `k3 = f` at `ic + h k2`, `k4 = f` at
`ic + h k3`, every stage seeing previous-step values for the non-state
arguments. -/
def specRK4 (f : Kwargs → ℚ) (arg_names : List String) (ts : String → ℚ)
    (ic h : ℚ) : ℚ :=
  let state_var := arg_names.getLastD ""
  let fAt := fun x => f (specStageKwargs arg_names state_var ts x)
  let k1 := fAt ic
  let k2 := fAt (ic + (h * k1) / 2)
  let k3 := fAt (ic + h * k2)
  let k4 := fAt (ic + h * k3)
  ic + (h / 6) * (k1 + 2 * k2 + 2 * k3 + k4)

theorem runge_kutta_eq_spec (mgr : IntegrationManager) (d : String)
    (ic : ℚ) (ts : String → ℚ) (f : Kwargs → ℚ) (arg_names : List String)
    (hd : mgr.derivative_functions d = (f, arg_names))
    (hf : ∀ kw kw', (∀ k, kw.lookup k = kw'.lookup k) → f kw = f kw') :
    runge_kutta_fourth_order mgr d ic ts
      = specRK4 f arg_names ts ic mgr.step_size := by
  unfold runge_kutta_fourth_order specRK4
  rw [hd]
  simp only []
  have estage : ∀ (base : Kwargs),
      (∀ k, k ≠ arg_names.getLastD "" →
        base.lookup k
          = (get_kwargs arg_names (arg_names.getLastD "") ts).lookup k) →
      ∀ x, f (dictSet base (arg_names.getLastD "") x)
        = f (specStageKwargs arg_names (arg_names.getLastD "") ts x) :=
    fun base hb x => hf _ _ (fun k =>
      dictSet_stage_lookup arg_names (arg_names.getLastD "") ts base x hb k)
  rw [estage _ (fun _ _ => rfl) ic]
  rw [estage _ (fun k hk => by rw [dictSet_lookup_ne _ _ _ _ hk]) _]
  rw [estage _ (fun k hk => by
    rw [dictSet_lookup_ne _ _ _ _ hk, dictSet_lookup_ne _ _ _ _ hk]) _]
  rw [estage _ (fun k hk => by
    rw [dictSet_lookup_ne _ _ _ _ hk, dictSet_lookup_ne _ _ _ _ hk,
      dictSet_lookup_ne _ _ _ _ hk]) _]

/-- C2: with IALG = 5 the manager computes `h = min(MAXT, CINT/NSTP)`,
and `integrate` returns `ic + (h/6)(k1 + 2k2 + 2k3 + k4)` with the four
stages of the claim, each evaluated with the previous-step values for
every non-state argument (`specRK4`/`specStageKwargs` spell that out). -/
theorem integrate_rk4_formula (MAXT NSTP CINT : ℚ) (hN : NSTP ≠ 0)
    (derivs : String → (Kwargs → ℚ) × List String)
    (d : String) (ic : ℚ) (ts : String → ℚ)
    (f : Kwargs → ℚ) (arg_names : List String)
    (hd : derivs d = (f, arg_names)) (hargs : arg_names ≠ [])
    (hf : ∀ kw kw', (∀ k, kw.lookup k = kw'.lookup k) → f kw = f kw')
    (mgr : IntegrationManager)
    (hmk : mkIntegrationManager 5 MAXT NSTP CINT derivs = .ok mgr) :
    mgr.step_size = min MAXT (CINT / NSTP)
    ∧ integrate mgr d ic ts
        = .ok (specRK4 f arg_names ts ic (min MAXT (CINT / NSTP))) := by
  have hmk' : mgr = { IALG := 5, MAXT := MAXT, NSTP := NSTP, CINT := CINT,
                      derivative_functions := derivs,
                      step_size := set_step_size MAXT CINT NSTP } := by
    unfold mkIntegrationManager at hmk
    rw [if_neg (by norm_num)] at hmk
    simpa using hmk.symm
  subst hmk'
  refine ⟨rfl, ?_⟩
  have hdisp : integrate { IALG := 5, MAXT := MAXT, NSTP := NSTP, CINT := CINT,
                           derivative_functions := derivs,
                           step_size := set_step_size MAXT CINT NSTP } d ic ts
      = .ok (runge_kutta_fourth_order
          { IALG := 5, MAXT := MAXT, NSTP := NSTP, CINT := CINT,
            derivative_functions := derivs,
            step_size := set_step_size MAXT CINT NSTP } d ic ts) := rfl
  rw [hdisp, runge_kutta_eq_spec _ d ic ts f arg_names hd hf]
  rfl

theorem integrate_rk4_formula_witness :
    integrate { IALG := 5, MAXT := 1, NSTP := 2, CINT := 1,
                derivative_functions :=
                  fun _ => (fun kw => (kw.lookup "y").getD 0, ["t", "y"]),
                step_size := set_step_size 1 1 2 } "d" 1 (fun _ => 0)
      = .ok (specRK4 (fun kw => (kw.lookup "y").getD 0) ["t", "y"]
          (fun _ => 0) 1 (min 1 (1 / 2))) :=
  (integrate_rk4_formula 1 2 1 (by norm_num)
    (fun _ => (fun kw => (kw.lookup "y").getD 0, ["t", "y"])) "d" 1
    (fun _ => 0) (fun kw => (kw.lookup "y").getD 0) ["t", "y"] rfl
    (by simp) (fun kw kw' hk => by simp [hk "y"]) _ rfl).2

/-! ### Run loop and result projection (run/acsl_run.py), C4 -/

/-- The `while self.t <= self.TSTP` loop of `AcslRun.run`, projected to
the row labels/`t` column it stores (each iteration stores a row at the
current time, then advances by the step size).  `fuel` is an embedding
artifact: one iteration consumes one unit, and the caller passes enough
for the loop to exit by its own condition. -/
def storeLoop (TSTP h : ℚ) : Nat → ℚ → List ℚ → List ℚ
  | 0, _, acc => acc.reverse
  | fuel + 1, t, acc =>
    if t ≤ TSTP then storeLoop TSTP h fuel (t + h) (t :: acc) else acc.reverse

/-- The `t` column of `self.results` after `AcslRun.run`'s loops: the
initial `t = 0` row stored before the loop, then one row per step while
`t ≤ TSTP`.  With `0 < h` the loop runs `⌊TSTP/h⌋` times, so that much
fuel (plus one for the final failing test) is exact. -/
def runStoredTimes (TSTP h : ℚ) : List ℚ :=
  storeLoop TSTP h (Int.toNat ⌊TSTP / h⌋ + 1) h [0]

/-- Number of points of `numpy.arange(0, stop, step)` for `step > 0`. -/
def arangeLen (stop step : ℚ) : Nat := Int.toNat ⌈stop / step⌉

/-- `numpy.arange(0, stop, step)` for `step > 0`: multiples of `step`
below `stop`. -/
def arange (stop step : ℚ) : List ℚ :=
  (List.range (arangeLen stop step)).map (fun k : Nat => (k : ℚ) * step)

/-- `pandas` `idxmin` over `|t - target|` followed by `.loc`: the first
element of `stored` (rows are in time order) closest to `target`. -/
def closestTime (target : ℚ) : List ℚ → ℚ
  | [] => 0
  | [a] => a
  | a :: b :: rest =>
    let c := closestTime target (b :: rest)
    if |a - target| ≤ |c - target| then a else c

/-- `AcslRun._get_final_results`, projected to the `t` column: walk the
communication grid `arange(0, TSTP + CINT, CINT)`, stop at the first
grid point past `TSTP`, and for each kept grid point copy the stored row
with the closest time. -/
def get_final_results (TSTP CINT : ℚ) (stored : List ℚ) : List ℚ :=
  ((arange (TSTP + CINT) CINT).takeWhile (fun tt => tt ≤ TSTP)).map
    (fun tt => closestTime tt stored)

/-- The `t` column of the table `AcslRun.run` returns. -/
def run_result_times (TSTP CINT h : ℚ) : List ℚ :=
  get_final_results TSTP CINT (runStoredTimes TSTP h)

/-- Index of the stored row `idxmin` picks for a target `T` over the
stored times `0, h, ..., m·h`: `T/h` rounded half-down, clamped to the
available rows.  Derivation artifact for the C4 proofs. -/
def clampIdx (a n : Nat) (q : Int) : Int :=
  max (a : Int) (min ((a : Int) + (n : Int) - 1) q)

theorem storeLoop_eq (TSTP h : ℚ) (hh : 0 < h) (hT : 0 ≤ TSTP) :
    ∀ (fuel k : Nat) (acc : List ℚ),
      k ≤ Int.toNat ⌊TSTP / h⌋ + 1 →
      Int.toNat ⌊TSTP / h⌋ + 1 ≤ k + fuel →
      storeLoop TSTP h fuel ((k : ℚ) * h) acc
        = acc.reverse
          ++ (List.range' k (Int.toNat ⌊TSTP / h⌋ + 1 - k)).map
              (fun j : Nat => (j : ℚ) * h) := by
  have hm0 : (0:ℤ) ≤ ⌊TSTP / h⌋ := Int.floor_nonneg.mpr (by positivity)
  have hmz : ((Int.toNat ⌊TSTP / h⌋ : ℤ)) = ⌊TSTP / h⌋ := Int.toNat_of_nonneg hm0
  intro fuel
  induction fuel with
  | zero =>
    intro k acc hk1 hk2
    have hkm : k = Int.toNat ⌊TSTP / h⌋ + 1 := by omega
    subst hkm
    simp [storeLoop, Nat.sub_self]
  | succ f ih =>
    intro k acc hk1 hk2
    by_cases hkm : k ≤ Int.toNat ⌊TSTP / h⌋
    · have hkh : (k:ℚ) * h ≤ TSTP := by
        have h1 : (k:ℤ) ≤ ⌊TSTP / h⌋ := by omega
        have h2 : (k:ℚ) ≤ TSTP / h := by exact_mod_cast Int.le_floor.mp h1
        calc (k:ℚ) * h ≤ (TSTP / h) * h :=
              mul_le_mul_of_nonneg_right h2 (le_of_lt hh)
          _ = TSTP := div_mul_cancel₀ _ (ne_of_gt hh)
      rw [storeLoop, if_pos hkh]
      have hstep : (k:ℚ) * h + h = ((k + 1 : Nat) : ℚ) * h := by
        push_cast
        ring
      rw [hstep, ih (k + 1) ((k:ℚ) * h :: acc) (by omega) (by omega)]
      have hrange : List.range' k (Int.toNat ⌊TSTP / h⌋ + 1 - k)
          = k :: List.range' (k + 1) (Int.toNat ⌊TSTP / h⌋ - k) := by
        have he : Int.toNat ⌊TSTP / h⌋ + 1 - k
            = (Int.toNat ⌊TSTP / h⌋ - k) + 1 := by omega
        rw [he, List.range'_succ k _ 1]
      rw [hrange]
      have he2 : Int.toNat ⌊TSTP / h⌋ + 1 - (k + 1)
          = Int.toNat ⌊TSTP / h⌋ - k := by omega
      rw [he2]
      simp
    · have hkm1 : k = Int.toNat ⌊TSTP / h⌋ + 1 := by omega
      subst hkm1
      have hgt : ¬ ((Int.toNat ⌊TSTP / h⌋ + 1 : Nat) : ℚ) * h ≤ TSTP := by
        intro hle
        have h1 : TSTP / h < (⌊TSTP / h⌋ : ℚ) + 1 := Int.lt_floor_add_one _
        have h2 : ((Int.toNat ⌊TSTP / h⌋ + 1 : Nat) : ℚ)
            = (⌊TSTP / h⌋ : ℚ) + 1 := by
          exact_mod_cast congrArg (fun z : ℤ => z + 1) hmz
        rw [h2] at hle
        have h3 : TSTP / h < ((⌊TSTP / h⌋ : ℚ) + 1) := h1
        have h4 : ((⌊TSTP / h⌋ : ℚ) + 1) * h ≤ TSTP := hle
        have h5 : TSTP < ((⌊TSTP / h⌋ : ℚ) + 1) * h := by
          have := (div_lt_iff₀ hh).mp h3
          linarith
        linarith
      rw [storeLoop, if_neg hgt]
      simp [Nat.sub_self]

theorem runStoredTimes_eq (TSTP h : ℚ) (hh : 0 < h) (hT : 0 ≤ TSTP) :
    runStoredTimes TSTP h
      = (List.range (Int.toNat ⌊TSTP / h⌋ + 1)).map (fun j : Nat => (j:ℚ) * h) := by
  unfold runStoredTimes
  have hmain := storeLoop_eq TSTP h hh hT (Int.toNat ⌊TSTP / h⌋ + 1) 1 [0]
    (by omega) (by omega)
  rw [show ((1 : Nat) : ℚ) * h = h by push_cast; ring] at hmain
  rw [hmain]
  have h2 : List.range (Int.toNat ⌊TSTP / h⌋ + 1)
      = 0 :: List.range' 1 (Int.toNat ⌊TSTP / h⌋) := by
    rw [List.range_eq_range']
    exact List.range'_succ 0 _ 1
  rw [h2]
  have h3 : Int.toNat ⌊TSTP / h⌋ + 1 - 1 = Int.toNat ⌊TSTP / h⌋ := by omega
  rw [h3]
  simp

theorem takeWhile_range' (q : Nat → Bool) (K : Nat)
    (hq : ∀ k, q k = true ↔ k ≤ K) :
    ∀ (n a : Nat), (List.range' a n).takeWhile q
      = List.range' a (min n (K + 1 - a)) := by
  intro n
  induction n with
  | zero => intro a; simp
  | succ m ih =>
    intro a
    rw [List.range'_succ a m 1, List.takeWhile_cons]
    by_cases ha : a ≤ K
    · rw [if_pos ((hq a).mpr ha), ih (a + 1)]
      have he : min (m + 1) (K + 1 - a) = min m (K + 1 - (a + 1)) + 1 := by
        omega
      rw [he, List.range'_succ a _ 1]
    · have hqa : q a = false := by
        cases hqa : q a with
        | false => rfl
        | true => exact absurd ((hq a).mp hqa) ha
      rw [hqa]
      have he : min (m + 1) (K + 1 - a) = 0 := by omega
      rw [he]
      simp

theorem takeWhile_arange (TSTP CINT : ℚ) (hC : 0 < CINT) (hT : 0 ≤ TSTP) :
    (arange (TSTP + CINT) CINT).takeWhile (fun tt => tt ≤ TSTP)
      = (List.range (Int.toNat ⌊TSTP / CINT⌋ + 1)).map
          (fun k : Nat => (k : ℚ) * CINT) := by
  have hm0 : (0:ℤ) ≤ ⌊TSTP / CINT⌋ := Int.floor_nonneg.mpr (by positivity)
  have hmz : ((Int.toNat ⌊TSTP / CINT⌋ : ℤ)) = ⌊TSTP / CINT⌋ :=
    Int.toNat_of_nonneg hm0
  unfold arange
  rw [List.takeWhile_map]
  have hq : ∀ k : Nat,
      ((fun tt => decide (tt ≤ TSTP)) ∘ (fun k : Nat => (k : ℚ) * CINT)) k
        = true ↔ k ≤ Int.toNat ⌊TSTP / CINT⌋ := by
    intro k
    simp only [Function.comp, decide_eq_true_eq]
    constructor
    · intro hk
      have h1 : (k:ℚ) ≤ TSTP / CINT := by
        rw [le_div_iff₀ hC]
        exact hk
      have h2 : (k:ℤ) ≤ ⌊TSTP / CINT⌋ := Int.le_floor.mpr (by exact_mod_cast h1)
      omega
    · intro hk
      have h2 : (k:ℤ) ≤ ⌊TSTP / CINT⌋ := by omega
      have h1 : (k:ℚ) ≤ TSTP / CINT := by exact_mod_cast Int.le_floor.mp h2
      exact (le_div_iff₀ hC).mp h1
  rw [List.range_eq_range', takeWhile_range' _ _ hq (arangeLen (TSTP + CINT) CINT) 0]
  have hlen : Int.toNat ⌊TSTP / CINT⌋ + 1 ≤ arangeLen (TSTP + CINT) CINT := by
    unfold arangeLen
    have h1 : (TSTP + CINT) / CINT = TSTP / CINT + 1 := by
      field_simp
    rw [h1]
    have h2 : ⌈TSTP / CINT + 1⌉ = ⌈TSTP / CINT⌉ + 1 := by
      exact_mod_cast Int.ceil_add_int (TSTP / CINT) 1
    have h3 : ⌊TSTP / CINT⌋ ≤ ⌈TSTP / CINT⌉ := Int.floor_le_ceil _
    omega
  have he : min (arangeLen (TSTP + CINT) CINT)
      (Int.toNat ⌊TSTP / CINT⌋ + 1 - 0) = Int.toNat ⌊TSTP / CINT⌋ + 1 := by
    omega
  rw [he, ← List.range_eq_range']

theorem abs_dist_mono_left (u v T : ℚ) (huv : u < v) (hmid : T ≤ (u + v) / 2) :
    |u - T| ≤ |v - T| := by
  rcases le_total T u with hTu | hTu
  · rw [abs_of_nonneg (by linarith), abs_of_nonneg (by linarith)]
    linarith
  · rw [abs_of_nonpos (by linarith)]
    rcases le_total T v with hTv | hTv
    · rw [abs_of_nonneg (by linarith)]
      linarith
    · exact absurd hTv (by push_neg; linarith)

theorem abs_dist_lt_right (u v T : ℚ) (huv : u < v) (hmid : (u + v) / 2 < T) :
    |v - T| < |u - T| := by
  have hTu : u < T := by linarith
  rw [abs_of_neg (by linarith : u - T < 0)]
  rcases le_total v T with hTv | hTv
  · rw [abs_of_nonpos (by linarith)]
    linarith
  · rw [abs_of_nonneg (by linarith)]
    linarith

theorem closestTime_range' (h : ℚ) (hh : 0 < h) (T : ℚ) :
    ∀ (n : Nat), 1 ≤ n → ∀ (a : Nat),
      closestTime T ((List.range' a n).map (fun j : Nat => (j : ℚ) * h))
        = ((clampIdx a n ⌈T / h - 1 / 2⌉ : ℤ) : ℚ) * h := by
  intro n
  induction n with
  | zero => intro h1; exact absurd h1 (by omega)
  | succ m ih =>
    intro _ a
    cases m with
    | zero =>
      have h1 : (List.range' a (0 + 1)).map (fun j : Nat => (j : ℚ) * h)
          = [(a : ℚ) * h] := by
        simp
      rw [h1]
      have hcl : clampIdx a (0 + 1) ⌈T / h - 1 / 2⌉ = (a : ℤ) := by
        unfold clampIdx
        omega
      rw [hcl]
      rfl
    | succ m' =>
      have hlist : (List.range' a (m' + 1 + 1)).map (fun j : Nat => (j : ℚ) * h)
          = ((a : ℚ) * h)
            :: (List.range' (a + 1) (m' + 1)).map (fun j : Nat => (j : ℚ) * h) := by
        rw [List.range'_succ a (m' + 1) 1]
        simp
      have htail : (List.range' (a + 1) (m' + 1)).map (fun j : Nat => (j : ℚ) * h)
          = (((a + 1 : Nat)) : ℚ) * h
            :: (List.range' (a + 2) m').map (fun j : Nat => (j : ℚ) * h) := by
        rw [List.range'_succ (a + 1) m' 1]
        simp
      rw [hlist, htail]
      simp only [closestTime]
      rw [← htail, ih (by omega) (a + 1)]
      set q := ⌈T / h - 1 / 2⌉ with hqdef
      have hqlb : T / h - 1 / 2 ≤ (q : ℚ) := Int.le_ceil _
      have hqub : (q : ℚ) < T / h + 1 / 2 := by
        have := Int.ceil_lt_add_one (T / h - 1 / 2)
        rw [← hqdef] at this
        linarith
      have hxh : (T / h) * h = T := div_mul_cancel₀ _ (ne_of_gt hh)
      by_cases hcase : q ≤ (a : ℤ)
      · -- head at least as, close since T ≤ a·h + h/2
        have hqa : (q : ℚ) ≤ (a : ℚ) := by exact_mod_cast hcase
        have hTle : T ≤ (a : ℚ) * h + h / 2 := by
          have h1 : T / h ≤ (a : ℚ) + 1 / 2 := by linarith
          have h2 : (T / h) * h ≤ ((a : ℚ) + 1 / 2) * h :=
            mul_le_mul_of_nonneg_right h1 (le_of_lt hh)
          rw [hxh] at h2
          linarith
        have hclamp1 : clampIdx (a + 1) (m' + 1) q = (a : ℤ) + 1 := by
          unfold clampIdx
          push_cast
          omega
        have hclamp2 : clampIdx a (m' + 1 + 1) q = (a : ℤ) := by
          unfold clampIdx
          push_cast
          omega
        rw [hclamp1, hclamp2]
        have hcond : |(a : ℚ) * h - T| ≤ |(((a : ℤ) + 1 : ℤ) : ℚ) * h - T| := by
          apply abs_dist_mono_left
          · push_cast
            nlinarith
          · push_cast
            linarith
        rw [if_pos hcond]
        push_cast
        ring
      · -- tail minimum strictly closer
        push_neg at hcase
        have haq : (a : ℤ) + 1 ≤ q := hcase
        have haqQ : (a : ℚ) < T / h - 1 / 2 := by
          rw [hqdef] at hcase
          exact_mod_cast Int.lt_ceil.mp hcase
        have hTgt : (a : ℚ) * h + h / 2 < T := by
          have h1 : ((a : ℚ) + 1 / 2) * h < (T / h) * h :=
            mul_lt_mul_of_pos_right (by linarith) hh
          rw [hxh] at h1
          linarith
        have hclamp1 : clampIdx (a + 1) (m' + 1) q
            = min ((a : ℤ) + 1 + (m' : ℤ)) q := by
          unfold clampIdx
          push_cast
          omega
        have hclamp2 : clampIdx a (m' + 1 + 1) q
            = min ((a : ℤ) + 1 + (m' : ℤ)) q := by
          unfold clampIdx
          push_cast
          omega
        rw [hclamp1, hclamp2]
        set i := min ((a : ℤ) + 1 + (m' : ℤ)) q with hidef
        have hia : (a : ℤ) < i := by omega
        have hiq : i ≤ q := by omega
        have hih : (i : ℚ) * h < T + h / 2 := by
          have h1 : (i : ℚ) ≤ (q : ℚ) := by exact_mod_cast hiq
          have h2 : (i : ℚ) < T / h + 1 / 2 := lt_of_le_of_lt h1 hqub
          have h3 : (i : ℚ) * h < (T / h + 1 / 2) * h :=
            mul_lt_mul_of_pos_right h2 hh
          rw [add_mul, hxh] at h3
          linarith
        have hcond : ¬ (|(a : ℚ) * h - T| ≤ |(i : ℚ) * h - T|) := by
          apply not_le.mpr
          apply abs_dist_lt_right
          · have h1 : ((a : ℤ) : ℚ) < (i : ℚ) := by exact_mod_cast hia
            have h2 := mul_lt_mul_of_pos_right h1 hh
            push_cast at h2 ⊢
            linarith
          · linarith
        rw [if_neg hcond]

/-- C4 (amended): for positive stop time, positive CINT, positive MAXT
and NSTP ≥ 1, the projected table has exactly `⌊TSTP/CINT⌋ + 1` rows and
its `t` column is monotonically non-decreasing; it is *strictly*
increasing whenever `3·h ≤ 2·CINT` (in particular whenever NSTP ≥ 2),
but not in general. -/
theorem run_result_grid (TSTP CINT MAXT NSTP : ℚ)
    (hT : 0 < TSTP) (hC : 0 < CINT) (hM : 0 < MAXT) (hN : 1 ≤ NSTP) :
    (run_result_times TSTP CINT (set_step_size MAXT CINT NSTP)).length
        = Int.toNat ⌊TSTP / CINT⌋ + 1
    ∧ (run_result_times TSTP CINT (set_step_size MAXT CINT NSTP)).Chain'
        (· ≤ ·)
    ∧ (3 * set_step_size MAXT CINT NSTP ≤ 2 * CINT →
        (run_result_times TSTP CINT (set_step_size MAXT CINT NSTP)).Chain'
          (· < ·)) := by
  have hN0 : (0:ℚ) < NSTP := lt_of_lt_of_le one_pos hN
  set h := set_step_size MAXT CINT NSTP with hdef
  have hh : 0 < h := by
    rw [hdef, set_step_size]
    exact lt_min hM (div_pos hC hN0)
  have hhC : h ≤ CINT := by
    rw [hdef, set_step_size]
    exact le_trans (min_le_right _ _) (div_le_self hC.le hN)
  set m := Int.toNat ⌊TSTP / h⌋ with hmdef
  set K := Int.toNat ⌊TSTP / CINT⌋ with hKdef
  have hmz : ((m : ℤ)) = ⌊TSTP / h⌋ :=
    Int.toNat_of_nonneg (Int.floor_nonneg.mpr (by positivity))
  have hKz : ((K : ℤ)) = ⌊TSTP / CINT⌋ :=
    Int.toNat_of_nonneg (Int.floor_nonneg.mpr (by positivity))
  have hTm : TSTP < ((m : ℚ) + 1) * h := by
    have h1 : TSTP / h < (⌊TSTP / h⌋ : ℚ) + 1 := Int.lt_floor_add_one _
    have h2 : (TSTP / h) * h < ((⌊TSTP / h⌋ : ℚ) + 1) * h :=
      mul_lt_mul_of_pos_right h1 hh
    rw [div_mul_cancel₀ _ (ne_of_gt hh)] at h2
    have h3 : ((m : ℚ)) = ((⌊TSTP / h⌋ : ℤ) : ℚ) := by exact_mod_cast hmz
    rw [h3]
    exact h2
  have hres : run_result_times TSTP CINT h
      = (List.range (K + 1)).map
          (fun k : Nat =>
            ((clampIdx 0 (m + 1) ⌈((k : ℚ) * CINT) / h - 1 / 2⌉ : ℤ) : ℚ)
              * h) := by
    unfold run_result_times get_final_results
    rw [takeWhile_arange TSTP CINT hC hT.le, runStoredTimes_eq TSTP h hh hT.le,
      List.map_map]
    refine List.map_congr_left ?_
    intro k _
    simp only [Function.comp]
    rw [List.range_eq_range',
      closestTime_range' h hh ((k : ℚ) * CINT) (m + 1) (by omega) 0]
  rw [hres]
  have hstep : ∀ k : Nat,
      ⌈((k : ℚ) * CINT) / h - 1 / 2⌉ + 1
        ≤ ⌈(((k + 1 : Nat)) : ℚ) * CINT / h - 1 / 2⌉ := by
    intro k
    have hCh : (1:ℚ) ≤ CINT / h := (one_le_div hh).mpr hhC
    have hsplit : (((k + 1 : Nat)) : ℚ) * CINT / h
        = ((k : ℚ) * CINT) / h + CINT / h := by
      push_cast
      ring
    have hle : ((k : ℚ) * CINT) / h - 1 / 2 + (1:ℚ)
        ≤ (((k + 1 : Nat)) : ℚ) * CINT / h - 1 / 2 := by
      rw [hsplit]
      linarith
    have hceil1 : ⌈((k : ℚ) * CINT) / h - 1 / 2 + (1:ℚ)⌉
        = ⌈((k : ℚ) * CINT) / h - 1 / 2⌉ + 1 := by
      exact_mod_cast Int.ceil_add_int (((k : ℚ) * CINT) / h - 1 / 2) 1
    calc ⌈((k : ℚ) * CINT) / h - 1 / 2⌉ + 1
        = ⌈((k : ℚ) * CINT) / h - 1 / 2 + (1:ℚ)⌉ := hceil1.symm
      _ ≤ ⌈(((k + 1 : Nat)) : ℚ) * CINT / h - 1 / 2⌉ := Int.ceil_le_ceil hle
  have hq0 : ∀ k : Nat, (0:ℤ) ≤ ⌈((k : ℚ) * CINT) / h - 1 / 2⌉ := by
    intro k
    have hpos : (0:ℚ) ≤ ((k : ℚ) * CINT) / h := by positivity
    have : ((-1 : ℤ) : ℚ) < ((k : ℚ) * CINT) / h - 1 / 2 := by
      push_cast
      linarith
    have := Int.lt_ceil.mpr this
    omega
  refine ⟨by simp, ?_, ?_⟩
  · rw [List.chain'_map, List.chain'_range_succ]
    intro i _
    have hle : ((clampIdx 0 (m + 1) ⌈((i : ℚ) * CINT) / h - 1 / 2⌉ : ℤ) : ℚ)
        ≤ ((clampIdx 0 (m + 1)
            ⌈(((i + 1 : Nat)) : ℚ) * CINT / h - 1 / 2⌉ : ℤ) : ℚ) := by
      have hmono : clampIdx 0 (m + 1) ⌈((i : ℚ) * CINT) / h - 1 / 2⌉
          ≤ clampIdx 0 (m + 1) ⌈(((i + 1 : Nat)) : ℚ) * CINT / h - 1 / 2⌉ := by
        have := hstep i
        unfold clampIdx
        omega
      exact_mod_cast hmono
    exact mul_le_mul_of_nonneg_right hle hh.le
  · intro h32
    rw [List.chain'_map, List.chain'_range_succ]
    intro k hk
    have hkK : ((k : ℚ) + 1) * CINT ≤ TSTP := by
      have h1 : ((k + 1 : Nat) : ℤ) ≤ ⌊TSTP / CINT⌋ := by omega
      have h2 : (((k + 1 : Nat)) : ℚ) ≤ TSTP / CINT := by
        exact_mod_cast Int.le_floor.mp h1
      have h3 : (((k + 1 : Nat)) : ℚ) * CINT ≤ (TSTP / CINT) * CINT :=
        mul_le_mul_of_nonneg_right h2 hC.le
      rw [div_mul_cancel₀ _ (ne_of_gt hC)] at h3
      push_cast at h3
      exact h3
    have hqm : ⌈((k : ℚ) * CINT) / h - 1 / 2⌉ + 1 ≤ (m:ℤ) := by
      by_contra hcon
      push_neg at hcon
      have hmq : (m:ℤ) ≤ ⌈((k : ℚ) * CINT) / h - 1 / 2⌉ := by omega
      have hub : (⌈((k : ℚ) * CINT) / h - 1 / 2⌉ : ℚ)
          < ((k : ℚ) * CINT) / h + 1 / 2 := by
        have := Int.ceil_lt_add_one (((k : ℚ) * CINT) / h - 1 / 2)
        linarith
      have hmQ : (m:ℚ) ≤ (⌈((k : ℚ) * CINT) / h - 1 / 2⌉ : ℚ) := by
        exact_mod_cast hmq
      have hmlt : (m:ℚ) < ((k : ℚ) * CINT) / h + 1 / 2 := lt_of_le_of_lt hmQ hub
      have hmh : (m:ℚ) * h < (k : ℚ) * CINT + h / 2 := by
        have h1 : (m:ℚ) * h < (((k : ℚ) * CINT) / h + 1 / 2) * h :=
          mul_lt_mul_of_pos_right hmlt hh
        rw [add_mul, div_mul_cancel₀ _ (ne_of_gt hh)] at h1
        linarith
      -- TSTP - h < m·h and (k+1)·CINT ≤ TSTP force CINT < 3h/2
      have hlow : TSTP - h < (m:ℚ) * h := by
        have := hTm
        linarith [hTm]
      linarith [hkK, hmh, hlow, h32]
    have hlt : ((clampIdx 0 (m + 1) ⌈((k : ℚ) * CINT) / h - 1 / 2⌉ : ℤ) : ℚ)
        < ((clampIdx 0 (m + 1)
            ⌈(((k + 1 : Nat)) : ℚ) * CINT / h - 1 / 2⌉ : ℤ) : ℚ) := by
      have hmono : clampIdx 0 (m + 1) ⌈((k : ℚ) * CINT) / h - 1 / 2⌉
          < clampIdx 0 (m + 1) ⌈(((k + 1 : Nat)) : ℚ) * CINT / h - 1 / 2⌉ := by
        have h1 := hstep k
        have h2 := hq0 k
        have h3 := hqm
        unfold clampIdx
        push_cast at h1 h2 h3 ⊢
        omega
      exact_mod_cast hmono
    exact mul_lt_mul_of_pos_right hlt hh

theorem run_result_grid_witness :
    (run_result_times 2 1 (set_step_size 1 1 2)).Chain' (· < ·) :=
  (run_result_grid 2 1 1 2 (by norm_num) (by norm_num) (by norm_num)
    (by norm_num)).2.2 (by norm_num [set_step_size])

/-- C4 counterexample: TSTP = 6.2, CINT = 1, MAXT = 0.9, NSTP = 1 gives
step size h = 0.9; the projected table has the claimed ⌊6.2⌋ + 1 = 7
rows, but grid points 5 and 6 both select the stored row at t = 5.4, so
column 0 is not strictly monotonically increasing. -/
theorem run_result_grid_counterexample :
    set_step_size (9/10) 1 1 = 9/10
    ∧ run_result_times (31/5) 1 (9/10)
        = [0, 9/10, 9/5, 27/10, 18/5, 27/5, 27/5]
    ∧ (run_result_times (31/5) 1 (9/10)).length
        = Int.toNat ⌊(31/5 : ℚ) / 1⌋ + 1
    ∧ ¬ (run_result_times (31/5) 1 (9/10)).Chain' (· < ·) := by
  have hceil : (⌈((31:ℚ)/5 + 1) / 1⌉ : ℤ) = 8 := by
    rw [Int.ceil_eq_iff]
    constructor
    · norm_num
    · norm_num
  have hfloor : (⌊(31:ℚ)/5 / (9/10)⌋ : ℤ) = 6 := by norm_num
  have hmain : run_result_times (31/5) 1 (9/10)
      = [0, 9/10, 9/5, 27/10, 18/5, 27/5, 27/5] := by
    unfold run_result_times get_final_results runStoredTimes arange arangeLen
    rw [hceil, hfloor]
    norm_num [storeLoop, closestTime, List.takeWhile, abs, max_def]
  refine ⟨by norm_num [set_step_size], hmain, ?_, ?_⟩
  · rw [hmain]
    norm_num
    decide
  · rw [hmain]
    simp only [List.chain'_cons, List.chain'_singleton]
    norm_num
